import Mathlib

/-!
Urban-Retail-Visualizer — the spatial clustering and metrics engine.

Shallow embedding of the clustering core of the repository:

* `haversine` — great-circle distance, from `src/frontend/src/App.jsx`
  lines 21–33.
* `dbscanRun` — the DBSCAN-style density clusterer.  The implementation
  invoked by the app (`new clustering.DBSCAN()` from the `density-clustering`
  npm package, App.jsx lines 142–149) is a third-party dependency whose code
  is not part of this repository, so it is modelled from the spec (§4.2).
* `summarizeCluster` / `clustersSummary` — the per-cluster summary
  computation, from App.jsx lines 184–215.
* `analyzeCore` — the algorithmic skeleton of `analyzeLocation`
  (App.jsx lines 108–215): empty-input guard, point extraction,
  clustering, summaries, noise set.

JavaScript numbers are modelled as exact rationals/reals (`ℝ` where the code
computes with floats and transcendental functions, a generic linearly ordered
carrier for the clusterer, which only ever compares distances with `≤`).
-/

namespace UrbanRetail

/-- Error taxonomy of the spec (§7 and §4.2): `InvalidParameter` for bad
`eps`/`minPts`, `EmptyInput` for an empty point list given to the clusterer,
`InvalidInput` for an empty store list given to the pipeline. -/
inductive DbError where
  | InvalidParameter
  | EmptyInput
  | InvalidInput
  deriving DecidableEq, Repr

/-- Mutable scan state of the density clusterer (spec §4.2 / §9: an explicit
per-point state held in index-keyed collections).  `visited` and `assigned`
are the per-point flags; `clusters` the finished clusters in discovery order;
`noiseCand` the points flagged noise during the initial scan (spec §4.2
step 2 — such a point may later be promoted into a cluster). -/
structure DBState where
  visited : List ℕ
  assigned : List ℕ
  clusters : List (List ℕ)
  noiseCand : List ℕ
  deriving DecidableEq, Repr

/-- Modelled from the spec (§4.2): the neighborhood of point `i` — all point
indices (including `i` itself) whose distance from point `i` is at most
`eps`, computed with the pluggable distance function `d`.  The DBSCAN
implementation used by the app lives in the `density-clustering` package and
is not part of this repository. -/
def regionQuery {α β : Type*} [Inhabited α] [LinearOrder β]
    (points : List α) (eps : β) (d : α → α → β) (i : ℕ) : List ℕ :=
  (List.range points.length).filter
    (fun j => d (points.getD i default) (points.getD j default) ≤ eps)

/-- Modelled from the spec (§4.2 steps 3–4): cluster expansion.  Processes the
pending list; an unvisited point is visited and, if it is a core point, its
neighborhood is merged (deduplicated) into the pending list; any point not yet
assigned to a cluster is appended to the current cluster `cur`.  A point
already assigned to a cluster is never reassigned (step 4).  `fuel` bounds the
recursion; each step consumes one pending entry and one unit of fuel, the
pending list only ever grows by one neighborhood (≤ N entries) per newly
visited point, and at most N points are ever visited, so any fuel
≥ N² + N + 1 is never exhausted. -/
def expand {α β : Type*} [Inhabited α] [LinearOrder β]
    (points : List α) (eps : β) (minPts : ℕ) (d : α → α → β) :
    ℕ → List ℕ → List ℕ → DBState → List ℕ × DBState
  | 0, _, cur, st => (cur, st)
  | _ + 1, [], cur, st => (cur, st)
  | fuel + 1, q :: rest, cur, st =>
    if q ∈ st.visited then
      if q ∈ st.assigned then
        expand points eps minPts d fuel rest cur st
      else
        expand points eps minPts d fuel rest (cur ++ [q])
          { st with assigned := q :: st.assigned }
    else
      let nb := regionQuery points eps d q
      let pending := if minPts ≤ nb.length then rest ++ nb.filter (· ∉ rest) else rest
      let st1 := { st with visited := q :: st.visited }
      if q ∈ st1.assigned then
        expand points eps minPts d fuel pending cur st1
      else
        expand points eps minPts d fuel pending (cur ++ [q])
          { st1 with assigned := q :: st1.assigned }

/-- Modelled from the spec (§4.2 steps 1–5): the outer scan.  Iterates point
indices in input order; an unvisited point with a small neighborhood is
flagged noise, a core point seeds a new cluster which is then expanded. -/
def dbscanLoop {α β : Type*} [Inhabited α] [LinearOrder β]
    (points : List α) (eps : β) (minPts : ℕ) (d : α → α → β) :
    List ℕ → DBState → DBState
  | [], st => st
  | i :: rest, st =>
    if i ∈ st.visited then
      dbscanLoop points eps minPts d rest st
    else
      let nb := regionQuery points eps d i
      let st1 := { st with visited := i :: st.visited }
      if nb.length < minPts then
        dbscanLoop points eps minPts d rest
          { st1 with noiseCand := st1.noiseCand ++ [i] }
      else
        let fuel := points.length * points.length + points.length + 1
        let p := expand points eps minPts d fuel nb [i]
          { st1 with assigned := i :: st1.assigned }
        dbscanLoop points eps minPts d rest
          { p.2 with clusters := p.2.clusters ++ [p.1] }

/-- Modelled from the spec (§4.2): the density clusterer contract
`cluster(points, eps, minPts, distanceFn)`.  Fails with `InvalidParameter`
when `eps ≤ 0` or `minPts < 1`, with `EmptyInput` on an empty point list;
otherwise returns the clusters in discovery order together with the final
noise set (a noise candidate is promoted — i.e. excluded from the final noise
set — exactly when cluster expansion assigned it, spec §4.2 step 4). -/
def dbscanRun {α β : Type*} [Inhabited α] [LinearOrder β] [Zero β]
    (points : List α) (eps : β) (minPts : ℕ) (d : α → α → β) :
    Except DbError (List (List ℕ) × List ℕ) :=
  if eps ≤ 0 then .error .InvalidParameter
  else if minPts < 1 then .error .InvalidParameter
  else if points.isEmpty then .error .EmptyInput
  else
    let st := dbscanLoop points eps minPts d (List.range points.length)
      ⟨[], [], [], []⟩
    .ok (st.clusters, st.noiseCand.filter (fun i => i ∉ st.assigned))

/-- Invariant threaded through cluster expansion: membership in `assigned`
is exactly membership in a finished cluster or in the cluster under
construction `cur`; no index occurs twice across the finished clusters and
`cur`; every assigned point is visited; every visited point is assigned or a
noise candidate. -/
def ExpandInv (st : DBState) (cur : List ℕ) : Prop :=
  (∀ i, i ∈ st.assigned ↔ (i ∈ st.clusters.flatten ∨ i ∈ cur)) ∧
  (st.clusters.flatten ++ cur).Nodup ∧
  (∀ i ∈ st.assigned, i ∈ st.visited) ∧
  (∀ i ∈ st.visited, i ∈ st.assigned ∨ i ∈ st.noiseCand)

/-- Invariant holding between iterations of the outer scan: membership in
`assigned` is exactly membership in a finished cluster; no index occurs in
two clusters; every assigned point is visited; every visited point is
assigned or a noise candidate; no finished cluster is empty. -/
def LoopInv (st : DBState) : Prop :=
  (∀ i, i ∈ st.assigned ↔ i ∈ st.clusters.flatten) ∧
  st.clusters.flatten.Nodup ∧
  (∀ i ∈ st.assigned, i ∈ st.visited) ∧
  (∀ i ∈ st.visited, i ∈ st.assigned ∨ i ∈ st.noiseCand) ∧
  (∀ c ∈ st.clusters, c ≠ [])

/-- A normalized store record, App.jsx lines 129–137 (the `raw` tag map is
omitted: it is never read by the clustering or summary computations). -/
structure Store where
  id : ℕ
  name : String
  lat : ℝ
  lng : ℝ
  type : String
  size : String

/-- One entry of the JS breakdown objects `types` / `sizes` (App.jsx
lines 197–202): `obj[k] = (obj[k] || 0) + 1`, keys in first-encounter
order. -/
def bumpCount (l : List (String × ℕ)) (k : String) : List (String × ℕ) :=
  match l with
  | [] => [(k, 1)]
  | (k', v) :: rest =>
    if k' = k then (k', v + 1) :: rest else (k', v) :: bumpCount rest k

/-- The frequency breakdown of App.jsx lines 197–202: fold the members,
incrementing the count of each member's label. -/
def countsBy (f : Store → String) (members : List Store) : List (String × ℕ) :=
  members.foldl (fun acc s => bumpCount acc (f s)) []

/-- Sum of the counts of a breakdown. -/
def sumValues (l : List (String × ℕ)) : ℕ :=
  (l.map Prod.snd).sum

noncomputable section

open Real

instance : Inhabited Store := ⟨⟨0, "", 0, 0, "", ""⟩⟩

/-- JS `Math.atan2 y x` (used at App.jsx line 32): the two-argument
arctangent, by quadrant. -/
def atan2 (y x : ℝ) : ℝ :=
  if 0 < x then arctan (y / x)
  else if x = 0 then (if 0 < y then π / 2 else if y < 0 then -(π / 2) else 0)
  else if 0 ≤ y then arctan (y / x) + π
  else arctan (y / x) - π

/-- Degrees to radians, App.jsx line 23. -/
def toRad (deg : ℝ) : ℝ := deg * π / 180

/-- Haversine great-circle distance in meters, App.jsx lines 21–33.  A point
is a (latitude, longitude) pair, matching the JS `[lat, lng]` arrays. -/
def haversine (p1 p2 : ℝ × ℝ) : ℝ :=
  let R : ℝ := 6371000
  let dLat := toRad (p2.1 - p1.1)
  let dLon := toRad (p2.2 - p1.2)
  let lat1 := toRad p1.1
  let lat2 := toRad p2.1
  let a := Real.sin (dLat / 2) ^ 2 +
    Real.cos lat1 * Real.cos lat2 * Real.sin (dLon / 2) ^ 2
  R * 2 * atan2 (Real.sqrt a) (Real.sqrt (1 - a))

/-- JS `Math.max(...xs)` over the spread of a list (App.jsx line 189).  On an
empty argument list JS returns −∞, which has no counterpart in `ℝ`; the value
is only ever used under the subsequent 100-floor of line 192 and under that
floor the bottom value 0 is interchangeable with −∞.  On a non-empty list
this is the exact maximum of the list. -/
def listMax : List ℝ → ℝ
  | [] => 0
  | x :: xs => xs.foldl max x

/-- Cluster centroid, App.jsx lines 186–188: planar mean of latitudes and of
longitudes. -/
def centroidOf (members : List Store) : ℝ × ℝ :=
  ((members.map Store.lat).sum / members.length,
   (members.map Store.lng).sum / members.length)

/-- Cluster radius, App.jsx lines 189–192: maximum haversine distance from
the centroid to a member, floored at 100 meters. -/
def radiusOf (members : List Store) : ℝ :=
  max (listMax (members.map (fun s => haversine (centroidOf members) (s.lat, s.lng)))) 100

/-- Cluster area in km², App.jsx line 193: `π · (radiusMeters/1000)²`. -/
def areaOf (members : List Store) : ℝ :=
  π * (radiusOf members / 1000) ^ 2

/-- Cluster density in stores per km², App.jsx line 194:
`storeCount / max(areaKm2, 0.0001)`. -/
def densityOf (members : List Store) : ℝ :=
  members.length / max (areaOf members) 0.0001

/-- The per-cluster summary record returned by the map of App.jsx
lines 204–214. -/
structure ClusterSummary where
  id : ℕ
  centroid : ℝ × ℝ
  radiusMeters : ℝ
  storeCount : ℕ
  densityPerKm2 : ℝ
  densityScore : ℤ
  types : List (String × ℕ)
  sizes : List (String × ℕ)
  stores : List Store

/-- The body of the `clusters.map` at App.jsx lines 184–214, for one cluster:
member stores to summary. -/
def summarizeCluster (members : List Store) (idx : ℕ) : ClusterSummary :=
  { id := idx
    centroid := centroidOf members
    radiusMeters := radiusOf members
    storeCount := members.length
    densityPerKm2 := densityOf members
    densityScore := round (min 100 (densityOf members * 10))
    types := countsBy Store.type members
    sizes := countsBy Store.size members
    stores := members }

/-- The `clustersSummary` map of App.jsx lines 184–215: map each cluster's
index set to its member stores and summarize, the cluster id being the position in the
clusterer's output. -/
def clustersSummary (clusters : List (List ℕ)) (stores : List Store) :
    List ClusterSummary :=
  (clusters.zip (List.range clusters.length)).map
    (fun p => summarizeCluster (p.1.map (fun i => stores.getD i default)) p.2)

/-- Output of a successful pipeline run: ordered cluster summaries plus the
noise point indices. -/
structure AnalyzeResult where
  clusters : List ClusterSummary
  noise : List ℕ

/-- The algorithmic skeleton of `analyzeLocation`, App.jsx lines 108–215:
guard against an empty store list (the early return of lines 109–112,
surfaced per spec §7 as the `InvalidInput` failure — the run aborts producing
no clusters and no noise set), extract the point list in store order
(line 141), run DBSCAN with the hardcoded eps = 500 m and minPts = 3
(lines 142–146) and the haversine metric, collect the noise set (line 149)
and the cluster summaries (lines 184–215). -/
def analyzeCore (stores : List Store) : Except DbError AnalyzeResult :=
  if stores.isEmpty then .error .InvalidInput
  else
    match dbscanRun (stores.map (fun s => (s.lat, s.lng))) 500 3 haversine with
    | .error e => .error e
    | .ok (cls, noiseIdx) => .ok ⟨clustersSummary cls stores, noiseIdx⟩

end

/-! Invariant preservation through cluster expansion -/

theorem ExpandInv.addPoint {st : DBState} {cur : List ℕ} (h : ExpandInv st cur)
    {q : ℕ} (hq : q ∉ st.assigned) (hv : q ∈ st.visited) :
    ExpandInv { st with assigned := q :: st.assigned } (cur ++ [q]) := by
  obtain ⟨h1, h2, h3, h4⟩ := h
  have hqf : q ∉ st.clusters.flatten := fun hc => hq ((h1 q).mpr (Or.inl hc))
  have hqc : q ∉ cur := fun hc => hq ((h1 q).mpr (Or.inr hc))
  refine ⟨?_, ?_, ?_, ?_⟩
  · intro i
    simp only [List.mem_cons, List.mem_append, List.not_mem_nil, or_false]
    constructor
    · rintro (rfl | hi)
      · exact Or.inr (Or.inr rfl)
      · rcases (h1 i).mp hi with hf | hc
        · exact Or.inl hf
        · exact Or.inr (Or.inl hc)
    · rintro (hf | hc | rfl)
      · exact Or.inr ((h1 i).mpr (Or.inl hf))
      · exact Or.inr ((h1 i).mpr (Or.inr hc))
      · exact Or.inl rfl
  · rw [← List.append_assoc, List.nodup_append]
    refine ⟨h2, List.nodup_singleton q, ?_⟩
    intro a ha hb
    rw [List.mem_singleton] at hb
    subst hb
    rcases List.mem_append.mp ha with h | h
    exacts [hqf h, hqc h]
  · intro i hi
    rcases List.mem_cons.mp hi with rfl | hi
    · exact hv
    · exact h3 i hi
  · intro i hi
    rcases h4 i hi with ha | hn
    · exact Or.inl (List.mem_cons_of_mem _ ha)
    · exact Or.inr hn

theorem ExpandInv.visitAssign {st : DBState} {cur : List ℕ}
    (h : ExpandInv st cur) {q : ℕ} (hv : q ∉ st.visited) :
    ExpandInv { st with visited := q :: st.visited, assigned := q :: st.assigned }
      (cur ++ [q]) := by
  obtain ⟨h1, h2, h3, h4⟩ := h
  have hq : q ∉ st.assigned := fun ha => hv (h3 q ha)
  have hqf : q ∉ st.clusters.flatten := fun hc => hq ((h1 q).mpr (Or.inl hc))
  have hqc : q ∉ cur := fun hc => hq ((h1 q).mpr (Or.inr hc))
  refine ⟨?_, ?_, ?_, ?_⟩
  · intro i
    simp only [List.mem_cons, List.mem_append, List.not_mem_nil, or_false]
    constructor
    · rintro (rfl | hi)
      · exact Or.inr (Or.inr rfl)
      · rcases (h1 i).mp hi with hf | hc
        · exact Or.inl hf
        · exact Or.inr (Or.inl hc)
    · rintro (hf | hc | rfl)
      · exact Or.inr ((h1 i).mpr (Or.inl hf))
      · exact Or.inr ((h1 i).mpr (Or.inr hc))
      · exact Or.inl rfl
  · rw [← List.append_assoc, List.nodup_append]
    refine ⟨h2, List.nodup_singleton q, ?_⟩
    intro a ha hb
    rw [List.mem_singleton] at hb
    subst hb
    rcases List.mem_append.mp ha with h | h
    exacts [hqf h, hqc h]
  · intro i hi
    rcases List.mem_cons.mp hi with rfl | hi
    · exact List.mem_cons_self _ _
    · exact List.mem_cons_of_mem _ (h3 i hi)
  · intro i hi
    rcases List.mem_cons.mp hi with rfl | hi
    · exact Or.inl (List.mem_cons_self _ _)
    · rcases h4 i hi with ha | hn
      · exact Or.inl (List.mem_cons_of_mem _ ha)
      · exact Or.inr hn

theorem expand_invariant {α β : Type*} [Inhabited α] [LinearOrder β]
    (points : List α) (eps : β) (minPts : ℕ) (d : α → α → β) :
    ∀ (fuel : ℕ) (pending cur : List ℕ) (st : DBState), ExpandInv st cur →
      ExpandInv (expand points eps minPts d fuel pending cur st).2
          (expand points eps minPts d fuel pending cur st).1 ∧
        (expand points eps minPts d fuel pending cur st).2.clusters = st.clusters ∧
        (expand points eps minPts d fuel pending cur st).2.noiseCand = st.noiseCand ∧
        (∀ i ∈ st.visited,
          i ∈ (expand points eps minPts d fuel pending cur st).2.visited) ∧
        (∃ t, (expand points eps minPts d fuel pending cur st).1 = cur ++ t) := by
  intro fuel
  induction fuel with
  | zero =>
    intro pending cur st h
    exact ⟨h, rfl, rfl, fun _ h => h, ⟨[], by simp [expand]⟩⟩
  | succ n ih =>
    intro pending cur st h
    match pending with
    | [] =>
      exact ⟨h, rfl, rfl, fun _ h => h, ⟨[], by simp [expand]⟩⟩
    | q :: rest =>
      by_cases hv : q ∈ st.visited
      · by_cases ha : q ∈ st.assigned
        · rw [show expand points eps minPts d (n + 1) (q :: rest) cur st =
              expand points eps minPts d n rest cur st by
            simp only [expand, if_pos hv, if_pos ha]]
          exact ih rest cur st h
        · rw [show expand points eps minPts d (n + 1) (q :: rest) cur st =
              expand points eps minPts d n rest (cur ++ [q])
                { st with assigned := q :: st.assigned } by
            simp only [expand, if_pos hv, if_neg ha]]
          obtain ⟨e1, e2, e3, e4, t, ht⟩ :=
            ih rest (cur ++ [q]) { st with assigned := q :: st.assigned }
              (h.addPoint ha hv)
          exact ⟨e1, e2, e3, e4, ⟨[q] ++ t, by rw [ht, List.append_assoc]⟩⟩
      · have ha : q ∉ st.assigned := fun hqa => hv (h.2.2.1 q hqa)
        rw [show expand points eps minPts d (n + 1) (q :: rest) cur st =
            expand points eps minPts d n
              (if minPts ≤ (regionQuery points eps d q).length then
                rest ++ (regionQuery points eps d q).filter (· ∉ rest) else rest)
              (cur ++ [q])
              { st with visited := q :: st.visited, assigned := q :: st.assigned } by
          simp only [expand, if_neg hv, if_neg ha]]
        obtain ⟨e1, e2, e3, e4, t, ht⟩ :=
          ih _ (cur ++ [q])
            { st with visited := q :: st.visited, assigned := q :: st.assigned }
            (h.visitAssign hv)
        refine ⟨e1, e2, e3, ?_, ⟨[q] ++ t, by rw [ht, List.append_assoc]⟩⟩
        intro i hi
        exact e4 i (List.mem_cons_of_mem _ hi)

/-! Invariant preservation through the outer scan -/

theorem dbscanLoop_invariant {α β : Type*} [Inhabited α] [LinearOrder β]
    (points : List α) (eps : β) (minPts : ℕ) (d : α → α → β) :
    ∀ (l : List ℕ) (st : DBState), LoopInv st →
      LoopInv (dbscanLoop points eps minPts d l st) ∧
        (∀ i ∈ st.visited, i ∈ (dbscanLoop points eps minPts d l st).visited) ∧
        (∀ i ∈ l, i ∈ (dbscanLoop points eps minPts d l st).visited) := by
  intro l
  induction l with
  | nil =>
    intro st h
    simp only [dbscanLoop]
    exact ⟨h, fun _ h => h, by simp⟩
  | cons i rest ih =>
    intro st h
    obtain ⟨l1, l2, l3, l4, l5⟩ := h
    by_cases hv : i ∈ st.visited
    · rw [show dbscanLoop points eps minPts d (i :: rest) st =
          dbscanLoop points eps minPts d rest st by
        simp only [dbscanLoop, if_pos hv]]
      obtain ⟨g1, g2, g3⟩ := ih st ⟨l1, l2, l3, l4, l5⟩
      refine ⟨g1, g2, fun j hj => ?_⟩
      rcases List.mem_cons.mp hj with rfl | hj
      exacts [g2 j hv, g3 j hj]
    · by_cases hlen : (regionQuery points eps d i).length < minPts
      · -- noise-candidate branch
        rw [show dbscanLoop points eps minPts d (i :: rest) st =
            dbscanLoop points eps minPts d rest
              { st with visited := i :: st.visited,
                        noiseCand := st.noiseCand ++ [i] } by
          simp only [dbscanLoop, if_neg hv, if_pos hlen]]
        have h' : LoopInv { st with visited := i :: st.visited,
                                    noiseCand := st.noiseCand ++ [i] } := by
          refine ⟨l1, l2, ?_, ?_, l5⟩
          · intro j hj
            exact List.mem_cons_of_mem _ (l3 j hj)
          · intro j hj
            rcases List.mem_cons.mp hj with rfl | hj
            · exact Or.inr (List.mem_append.mpr (Or.inr (List.mem_singleton.mpr rfl)))
            · rcases l4 j hj with hja | hjn
              · exact Or.inl hja
              · exact Or.inr (List.mem_append.mpr (Or.inl hjn))
        obtain ⟨g1, g2, g3⟩ := ih _ h'
        refine ⟨g1, fun j hj => g2 j (List.mem_cons_of_mem _ hj), fun j hj => ?_⟩
        rcases List.mem_cons.mp hj with rfl | hj
        · exact g2 j (List.mem_cons_self _ _)
        · exact g3 j hj
      · -- core-point branch: a new cluster is seeded at i and expanded
        have hia : i ∉ st.assigned := fun hja => hv (l3 i hja)
        have hif : i ∉ st.clusters.flatten := fun hc => hia ((l1 i).mpr hc)
        rw [show dbscanLoop points eps minPts d (i :: rest) st =
            dbscanLoop points eps minPts d rest
              { (expand points eps minPts d
                  (points.length * points.length + points.length + 1)
                  (regionQuery points eps d i) [i]
                  { st with visited := i :: st.visited,
                            assigned := i :: st.assigned }).2 with
                clusters :=
                  (expand points eps minPts d
                    (points.length * points.length + points.length + 1)
                    (regionQuery points eps d i) [i]
                    { st with visited := i :: st.visited,
                              assigned := i :: st.assigned }).2.clusters ++
                  [(expand points eps minPts d
                    (points.length * points.length + points.length + 1)
                    (regionQuery points eps d i) [i]
                    { st with visited := i :: st.visited,
                              assigned := i :: st.assigned }).1] } by
          simp only [dbscanLoop, if_neg hv, if_neg hlen]]
        have einv : ExpandInv { st with visited := i :: st.visited,
                                        assigned := i :: st.assigned } [i] := by
          refine ⟨?_, ?_, ?_, ?_⟩
          · intro j
            simp only [List.mem_cons, List.not_mem_nil, or_false]
            constructor
            · rintro (rfl | hj)
              · exact Or.inr rfl
              · exact Or.inl ((l1 j).mp hj)
            · rintro (hf | rfl)
              · exact Or.inr ((l1 j).mpr hf)
              · exact Or.inl rfl
          · rw [List.nodup_append]
            refine ⟨l2, List.nodup_singleton i, fun a ha hb => ?_⟩
            rw [List.mem_singleton] at hb
            subst hb
            exact hif ha
          · intro j hj
            rcases List.mem_cons.mp hj with rfl | hj
            · exact List.mem_cons_self _ _
            · exact List.mem_cons_of_mem _ (l3 j hj)
          · intro j hj
            rcases List.mem_cons.mp hj with rfl | hj
            · exact Or.inl (List.mem_cons_self _ _)
            · rcases l4 j hj with hja | hjn
              · exact Or.inl (List.mem_cons_of_mem _ hja)
              · exact Or.inr hjn
        obtain ⟨⟨e1, e2, e3, e4⟩, ecl, enc, evm, t, ht⟩ :=
          expand_invariant points eps minPts d
            (points.length * points.length + points.length + 1)
            (regionQuery points eps d i) [i]
            { st with visited := i :: st.visited, assigned := i :: st.assigned }
            einv
        have h' : LoopInv
            { (expand points eps minPts d
                (points.length * points.length + points.length + 1)
                (regionQuery points eps d i) [i]
                { st with visited := i :: st.visited,
                          assigned := i :: st.assigned }).2 with
              clusters :=
                (expand points eps minPts d
                  (points.length * points.length + points.length + 1)
                  (regionQuery points eps d i) [i]
                  { st with visited := i :: st.visited,
                            assigned := i :: st.assigned }).2.clusters ++
                [(expand points eps minPts d
                  (points.length * points.length + points.length + 1)
                  (regionQuery points eps d i) [i]
                  { st with visited := i :: st.visited,
                            assigned := i :: st.assigned }).1] } := by
          refine ⟨?_, ?_, e3, e4, ?_⟩
          · intro j
            rw [e1 j]
            simp [List.flatten_append]
          · simpa [List.flatten_append] using e2
          · intro c hc
            rcases List.mem_append.mp hc with hc | hc
            · rw [ecl] at hc
              exact l5 c hc
            · rw [List.mem_singleton] at hc
              subst hc
              rw [ht]
              simp
        obtain ⟨g1, g2, g3⟩ := ih _ h'
        refine ⟨g1, fun j hj => g2 j (evm j (List.mem_cons_of_mem _ hj)),
          fun j hj => ?_⟩
        rcases List.mem_cons.mp hj with rfl | hj
        · exact g2 j (evm j (List.mem_cons_self _ _))
        · exact g3 j hj

/-- Unpacking a successful clusterer run: the final scan state satisfies the
loop invariant and has visited every point index. -/
theorem dbscanRun_ok_state {α β : Type*} [Inhabited α] [LinearOrder β] [Zero β]
    (points : List α) (eps : β) (minPts : ℕ) (d : α → α → β)
    (cls : List (List ℕ)) (ns : List ℕ)
    (h : dbscanRun points eps minPts d = .ok (cls, ns)) :
    ∃ st : DBState, LoopInv st ∧
      (∀ i < points.length, i ∈ st.visited) ∧
      cls = st.clusters ∧
      ns = st.noiseCand.filter (fun i => i ∉ st.assigned) := by
  unfold dbscanRun at h
  split_ifs at h
  simp only [Except.ok.injEq, Prod.mk.injEq] at h
  obtain ⟨hcls, hns⟩ := h
  have hinit : LoopInv (⟨[], [], [], []⟩ : DBState) := by
    refine ⟨by simp, by simp, by simp, by simp, by simp⟩
  obtain ⟨g1, _, g3⟩ :=
    dbscanLoop_invariant points eps minPts d (List.range points.length)
      ⟨[], [], [], []⟩ hinit
  exact ⟨_, g1, fun i hi => g3 i (List.mem_range.mpr hi), hcls.symm, hns.symm⟩

/-- In a list of lists whose concatenation has no duplicates, an element of
the concatenation belongs to exactly one of the lists. -/
theorem countP_flatten_nodup {L : List (List ℕ)} {i : ℕ}
    (hn : L.flatten.Nodup) (hi : i ∈ L.flatten) :
    L.countP (fun c => decide (i ∈ c)) = 1 := by
  induction L with
  | nil => simp at hi
  | cons c rest ih =>
    rw [List.flatten_cons] at hn hi
    rw [List.nodup_append] at hn
    obtain ⟨hnc, hnr, hdisj⟩ := hn
    rw [List.countP_cons]
    rcases List.mem_append.mp hi with hic | hir
    · have hno : ∀ c' ∈ rest, i ∉ c' := fun c' hc' hic' =>
        hdisj hic (List.mem_flatten.mpr ⟨c', hc', hic'⟩)
      have h0 : rest.countP (fun c => decide (i ∈ c)) = 0 :=
        List.countP_eq_zero.mpr (by simpa using hno)
      simp [h0, hic]
    · have hnic : i ∉ c := fun hic => hdisj hic hir
      rw [ih hnr hir]
      simp [hnic]

/-! Claim theorems: the clusterer -/

/-- C1: for every run of the clustering over a point list, every store index
appears in exactly one of the returned clusters or in the noise set, never in
both and never omitted. -/
theorem dbscan_partition {α β : Type*} [Inhabited α] [LinearOrder β] [Zero β]
    (points : List α) (eps : β) (minPts : ℕ) (d : α → α → β)
    (cls : List (List ℕ)) (ns : List ℕ)
    (h : dbscanRun points eps minPts d = .ok (cls, ns)) :
    ∀ i < points.length,
      (cls.countP (fun c => decide (i ∈ c)) = 1 ∧ i ∉ ns) ∨
      (cls.countP (fun c => decide (i ∈ c)) = 0 ∧ i ∈ ns) := by
  obtain ⟨st, ⟨l1, l2, l3, l4, l5⟩, hvis, hcls, hns⟩ :=
    dbscanRun_ok_state points eps minPts d cls ns h
  subst hcls hns
  intro i hi
  have hiv := hvis i hi
  by_cases hia : i ∈ st.assigned
  · left
    constructor
    · exact countP_flatten_nodup l2 ((l1 i).mp hia)
    · intro hin
      rw [List.mem_filter] at hin
      exact absurd hia (by simpa using hin.2)
  · right
    have hinc : i ∈ st.noiseCand := by
      rcases l4 i hiv with h | h
      · exact absurd h hia
      · exact h
    constructor
    · refine List.countP_eq_zero.mpr ?_
      intro c hc
      simp only [decide_eq_true_eq]
      intro hic
      exact hia ((l1 i).mpr (List.mem_flatten.mpr ⟨c, hc, hic⟩))
    · rw [List.mem_filter]
      exact ⟨hinc, by simpa using hia⟩

/-- Witness for C1: a concrete two-point run under the absolute-difference
metric produces clusters `[[0], [1]]` and no noise, and index 0 falls in
exactly one cluster. -/
theorem dbscan_partition_witness :
    (([[0], [1]] : List (List ℕ)).countP (fun c => decide ((0:ℕ) ∈ c)) = 1 ∧
        (0:ℕ) ∉ ([] : List ℕ)) ∨
      (([[0], [1]] : List (List ℕ)).countP (fun c => decide ((0:ℕ) ∈ c)) = 0 ∧
        (0:ℕ) ∈ ([] : List ℕ)) :=
  dbscan_partition ([0, 10] : List ℤ) 1 1 (fun a b => |a - b|) [[0], [1]] []
    (by rfl) 0 (by decide)

/-- C5 counterexample: a run with minPts = 4 over seven 1-dimensional points
(absolute-difference metric) in which the second discovered cluster has only
3 < minPts members.  The borderline point at index 3 lies in the seeding
neighborhood of the second cluster but was already assigned to the first
cluster and is never reassigned (spec §4.2 step 4), so the second cluster
comes up one member short. -/
theorem dbscan_cluster_below_minPts :
    dbscanRun ([0, -1, -1, 1, 2, 3, 3] : List ℤ) 1 4 (fun a b => |a - b|) =
      .ok ([[0, 1, 2, 3], [4, 5, 6]], []) ∧
      ([4, 5, 6] : List ℕ).length < 4 :=
  ⟨rfl, by decide⟩

/-- C5 (amended): every returned cluster is non-empty (`storeCount ≥ 1`);
a cluster discovered after the first can have fewer than `minPts` members,
because neighborhood points already assigned to an earlier cluster are not
re-added. -/
theorem dbscan_clusters_nonempty {α β : Type*} [Inhabited α] [LinearOrder β]
    [Zero β] (points : List α) (eps : β) (minPts : ℕ) (d : α → α → β)
    (cls : List (List ℕ)) (ns : List ℕ)
    (h : dbscanRun points eps minPts d = .ok (cls, ns)) :
    ∀ c ∈ cls, 1 ≤ c.length := by
  obtain ⟨st, ⟨_, _, _, _, l5⟩, _, hcls, _⟩ :=
    dbscanRun_ok_state points eps minPts d cls ns h
  subst hcls
  intro c hc
  have hne := l5 c hc
  cases c with
  | nil => exact absurd rfl hne
  | cons a l => simp

/-- Witness for C5's amended statement at a concrete run. -/
theorem dbscan_clusters_nonempty_witness : 1 ≤ ([0] : List ℕ).length :=
  dbscan_clusters_nonempty ([0, 10] : List ℤ) 1 1 (fun a b => |a - b|)
    [[0], [1]] [] (by rfl) [0] (by decide)

/-- C8: the clusterer fails with `InvalidParameter` whenever `eps ≤ 0` or
`minPts < 1`, before performing any clustering. -/
theorem dbscan_invalidParameter {α β : Type*} [Inhabited α] [LinearOrder β]
    [Zero β] (points : List α) (eps : β) (minPts : ℕ) (d : α → α → β)
    (h : eps ≤ 0 ∨ minPts < 1) :
    dbscanRun points eps minPts d = .error .InvalidParameter := by
  unfold dbscanRun
  rcases h with h | h
  · rw [if_pos h]
  · by_cases he : eps ≤ 0
    · rw [if_pos he]
    · rw [if_neg he, if_pos h]

/-- Witness for C8 at eps = 0. -/
theorem dbscan_invalidParameter_witness :
    ((0:ℤ) ≤ 0 ∨ (3:ℕ) < 1) ∧
      dbscanRun ([0] : List ℤ) 0 3 (fun a b => |a - b|) =
        .error .InvalidParameter :=
  ⟨Or.inl (by decide),
    dbscan_invalidParameter ([0] : List ℤ) 0 3 (fun a b => |a - b|)
      (Or.inl (by decide))⟩

/-! Breakdown counting lemmas -/

theorem sumValues_bumpCount (l : List (String × ℕ)) (k : String) :
    sumValues (bumpCount l k) = sumValues l + 1 := by
  induction l with
  | nil => simp [bumpCount, sumValues]
  | cons p rest ih =>
    obtain ⟨k', v⟩ := p
    by_cases h : k' = k
    · simp only [bumpCount, if_pos h, sumValues, List.map_cons, List.sum_cons]
      simp only [sumValues] at ih ⊢
      omega
    · simp only [bumpCount, if_neg h, sumValues, List.map_cons, List.sum_cons]
      simp only [sumValues] at ih
      omega

theorem sumValues_foldl_bump (f : Store → String) (members : List Store) :
    ∀ acc, sumValues (members.foldl (fun acc s => bumpCount acc (f s)) acc) =
      sumValues acc + members.length := by
  induction members with
  | nil => intro acc; simp
  | cons s rest ih =>
    intro acc
    simp only [List.foldl_cons, List.length_cons]
    rw [ih (bumpCount acc (f s)), sumValues_bumpCount]
    omega

theorem sumValues_countsBy (f : Store → String) (members : List Store) :
    sumValues (countsBy f members) = members.length := by
  unfold countsBy
  rw [sumValues_foldl_bump]
  simp [sumValues]

/-! Claim theorems: the summarizer and the pipeline -/

/-- C4: for every summarized cluster, the sum of the counts in the category
(type) breakdown equals `storeCount` and also equals the sum of the counts in
the size breakdown. -/
theorem breakdown_sums_eq_storeCount (members : List Store) (idx : ℕ) :
    sumValues (summarizeCluster members idx).types =
        (summarizeCluster members idx).storeCount ∧
      sumValues (summarizeCluster members idx).sizes =
        (summarizeCluster members idx).storeCount := by
  constructor <;> simp [summarizeCluster, sumValues_countsBy]

/-- C6: when the input store list is empty, the pipeline run fails with an
`InvalidInput` error, returning no clusters and no noise set. -/
theorem analyzeCore_empty_invalidInput :
    analyzeCore [] = .error .InvalidInput := by
  simp [analyzeCore]

/-- C7 counterexample: summarizing an empty member list does not fail — the
code has no emptiness check and returns a summary record (here with
`storeCount = 0`), so the claimed `InvalidInput` failure does not happen. -/
theorem summarize_empty_total : (summarizeCluster [] 0).storeCount = 0 := rfl

theorem densityOf_nil : densityOf [] = 0 := by
  unfold densityOf
  simp

/-- C7 (amended): the summarizer performs no emptiness validation — called
with zero members it returns a degenerate summary (`storeCount` 0, radius
floored to 100 meters, `densityScore` 0; the JS centroid is `NaN` from the
0/0 division) instead of failing with `InvalidInput`. -/
theorem summarize_empty_degenerate :
    (summarizeCluster [] 0).storeCount = 0 ∧
      (summarizeCluster [] 0).radiusMeters = 100 ∧
      (summarizeCluster [] 0).densityScore = 0 := by
  refine ⟨rfl, ?_, ?_⟩
  · show radiusOf [] = 100
    unfold radiusOf listMax
    simp
  · show round (min (100:ℝ) (densityOf [] * 10)) = 0
    rw [densityOf_nil]
    norm_num

theorem densityOf_nonneg (members : List Store) : 0 ≤ densityOf members := by
  unfold densityOf
  apply div_nonneg (Nat.cast_nonneg _)
  have h : (0:ℝ) < 0.0001 := by norm_num
  exact h.le.trans (le_max_right _ _)

/-- C2: for every summarized cluster, `densityScore` equals
`round(min(100, densityPerKm2 · 10))`, and `0 ≤ densityScore ≤ 100`. -/
theorem densityScore_formula_bounds (members : List Store) (idx : ℕ) :
    (summarizeCluster members idx).densityScore =
        round (min 100 ((summarizeCluster members idx).densityPerKm2 * 10)) ∧
      0 ≤ (summarizeCluster members idx).densityScore ∧
      (summarizeCluster members idx).densityScore ≤ 100 := by
  refine ⟨rfl, ?_, ?_⟩
  · show 0 ≤ round (min (100:ℝ) (densityOf members * 10))
    have h0 : 0 ≤ min (100:ℝ) (densityOf members * 10) :=
      le_min (by norm_num) (mul_nonneg (densityOf_nonneg members) (by norm_num))
    rw [round_eq]
    exact Int.le_floor.mpr (by push_cast; linarith)
  · show round (min (100:ℝ) (densityOf members * 10)) ≤ 100
    have h1 : min (100:ℝ) (densityOf members * 10) ≤ 100 := min_le_left _ _
    have h2 : round (min (100:ℝ) (densityOf members * 10)) ≤ round (100:ℝ) := by
      rw [round_eq, round_eq]
      exact Int.floor_le_floor (by linarith)
    simpa using h2

/-! Maximum-of-a-list lemmas -/

theorem foldl_max_mem : ∀ (l : List ℝ) (a : ℝ),
    l.foldl max a = a ∨ l.foldl max a ∈ l := by
  intro l
  induction l with
  | nil => intro a; left; rfl
  | cons x xs ih =>
    intro a
    rw [List.foldl_cons]
    rcases ih (max a x) with h | h
    · rcases max_choice a x with hm | hm
      · left; rw [h, hm]
      · right; rw [h, hm]; exact List.mem_cons_self _ _
    · right
      exact List.mem_cons_of_mem _ h

theorem le_foldl_max : ∀ (l : List ℝ) (a : ℝ),
    a ≤ l.foldl max a ∧ ∀ x ∈ l, x ≤ l.foldl max a := by
  intro l
  induction l with
  | nil => intro a; exact ⟨le_refl a, by simp⟩
  | cons y xs ih =>
    intro a
    rw [List.foldl_cons]
    obtain ⟨h1, h2⟩ := ih (max a y)
    refine ⟨(le_max_left a y).trans h1, ?_⟩
    intro x hx
    rcases List.mem_cons.mp hx with rfl | hx
    · exact (le_max_right a x).trans h1
    · exact h2 x hx

theorem listMax_mem : ∀ {l : List ℝ}, l ≠ [] → listMax l ∈ l := by
  intro l h
  match l with
  | [] => exact absurd rfl h
  | x :: xs =>
    rcases foldl_max_mem xs x with h' | h'
    · rw [show listMax (x :: xs) = xs.foldl max x from rfl, h']
      exact List.mem_cons_self _ _
    · exact List.mem_cons_of_mem _ h'

theorem le_listMax : ∀ {l : List ℝ} {x : ℝ}, x ∈ l → x ≤ listMax l := by
  intro l x hx
  match l with
  | [] => exact absurd hx (List.not_mem_nil x)
  | y :: xs =>
    obtain ⟨h1, h2⟩ := le_foldl_max xs y
    rcases List.mem_cons.mp hx with rfl | hx
    · exact h1
    · exact h2 x hx

theorem le_radiusOf (members : List Store) {m : Store} (hm : m ∈ members) :
    haversine (centroidOf members) (m.lat, m.lng) ≤ radiusOf members := by
  have hmem : haversine (centroidOf members) (m.lat, m.lng) ∈
      members.map fun s => haversine (centroidOf members) (s.lat, s.lng) :=
    List.mem_map_of_mem _ hm
  have h1 := le_listMax hmem
  unfold radiusOf
  exact le_trans h1 (le_max_left _ _)

theorem radiusOf_cases (members : List Store) (hne : members ≠ []) :
    radiusOf members = 100 ∨
      ∃ m ∈ members,
        radiusOf members = haversine (centroidOf members) (m.lat, m.lng) := by
  rcases le_total
    (listMax (members.map fun s => haversine (centroidOf members) (s.lat, s.lng)))
    100 with h | h
  · left
    exact max_eq_right h
  · right
    have hmem := listMax_mem
      (l := members.map fun s => haversine (centroidOf members) (s.lat, s.lng))
      (by simpa using hne)
    rw [List.mem_map] at hmem
    obtain ⟨m, hm, hfm⟩ := hmem
    refine ⟨m, hm, ?_⟩
    rw [show radiusOf members =
      max (listMax (members.map fun s =>
        haversine (centroidOf members) (s.lat, s.lng))) 100 from rfl]
    rw [max_eq_left h, ← hfm]

/-- C3: for a non-empty member list the radius dominates every
centroid-to-member haversine distance and is either the 100-meter floor or
attained at some member — i.e. it is the maximum member distance floored at
100 — and `radiusMeters ≥ 100` always. -/
theorem radius_max_floor (members : List Store) (idx : ℕ) :
    100 ≤ (summarizeCluster members idx).radiusMeters ∧
      (members ≠ [] →
        (∀ m ∈ members,
            haversine (centroidOf members) (m.lat, m.lng) ≤
              (summarizeCluster members idx).radiusMeters) ∧
          ((summarizeCluster members idx).radiusMeters = 100 ∨
            ∃ m ∈ members,
              (summarizeCluster members idx).radiusMeters =
                haversine (centroidOf members) (m.lat, m.lng))) := by
  have hrad : (summarizeCluster members idx).radiusMeters = radiusOf members := rfl
  rw [hrad]
  refine ⟨le_max_right _ _, fun hne => ⟨?_, ?_⟩⟩
  · intro m hm
    exact le_radiusOf members hm
  · exact radiusOf_cases members hne

/-- Witness for C3 at a singleton member list. -/
theorem radius_max_floor_witness :
    (([⟨0, "s", 0, 0, "shop", "small"⟩] : List Store) ≠ []) ∧
      ((∀ m ∈ ([⟨0, "s", 0, 0, "shop", "small"⟩] : List Store),
          haversine (centroidOf [⟨0, "s", 0, 0, "shop", "small"⟩]) (m.lat, m.lng) ≤
            (summarizeCluster [⟨0, "s", 0, 0, "shop", "small"⟩] 0).radiusMeters) ∧
        ((summarizeCluster [⟨0, "s", 0, 0, "shop", "small"⟩] 0).radiusMeters = 100 ∨
          ∃ m ∈ ([⟨0, "s", 0, 0, "shop", "small"⟩] : List Store),
            (summarizeCluster [⟨0, "s", 0, 0, "shop", "small"⟩] 0).radiusMeters =
              haversine (centroidOf [⟨0, "s", 0, 0, "shop", "small"⟩]) (m.lat, m.lng))) :=
  ⟨by simp, (radius_max_floor [⟨0, "s", 0, 0, "shop", "small"⟩] 0).2 (by simp)⟩

/-- C10: for every cluster with at least one member, the area computed from
the floored radius satisfies `areaKm2 ≥ π·0.01 > 0.0001`, so the
`max(areaKm2, 0.0001)` guard in the density computation never takes the
0.0001 branch and `densityPerKm2 = storeCount / areaKm2`. -/
theorem area_guard_never_taken (members : List Store) (idx : ℕ)
    (hne : members ≠ []) :
    Real.pi * (1 / 100) ≤ areaOf members ∧
      (0.0001 : ℝ) < Real.pi * (1 / 100) ∧
      (summarizeCluster members idx).densityPerKm2 =
        ((summarizeCluster members idx).storeCount : ℝ) / areaOf members := by
  have hr : (100:ℝ) ≤ radiusOf members := le_max_right _ _
  have harea : Real.pi * (1 / 100) ≤ areaOf members := by
    unfold areaOf
    have h1 : (1/10 : ℝ) ≤ radiusOf members / 1000 := by linarith
    have h2 : (1/100 : ℝ) ≤ (radiusOf members / 1000) ^ 2 := by
      have h3 := pow_le_pow_left₀ (by norm_num : (0:ℝ) ≤ 1/10) h1 2
      calc (1/100 : ℝ) = (1/10 : ℝ) ^ 2 := by norm_num
        _ ≤ _ := h3
    exact mul_le_mul_of_nonneg_left h2 Real.pi_nonneg
  have hpi : (0.0001 : ℝ) < Real.pi * (1 / 100) := by
    have h4 := Real.pi_gt_three
    nlinarith
  refine ⟨harea, hpi, ?_⟩
  show densityOf members = (members.length : ℝ) / areaOf members
  unfold densityOf
  rw [max_eq_left (by linarith : (0.0001:ℝ) ≤ areaOf members)]

/-- Witness for C10 at a singleton member list. -/
theorem area_guard_never_taken_witness :
    (([⟨1, "t", 0, 0, "shop", "small"⟩] : List Store) ≠ []) ∧
      (Real.pi * (1 / 100) ≤ areaOf [⟨1, "t", 0, 0, "shop", "small"⟩] ∧
        (0.0001 : ℝ) < Real.pi * (1 / 100) ∧
        (summarizeCluster [⟨1, "t", 0, 0, "shop", "small"⟩] 0).densityPerKm2 =
          ((summarizeCluster [⟨1, "t", 0, 0, "shop", "small"⟩] 0).storeCount : ℝ) /
            areaOf [⟨1, "t", 0, 0, "shop", "small"⟩]) :=
  ⟨by simp, area_guard_never_taken [⟨1, "t", 0, 0, "shop", "small"⟩] 0 (by simp)⟩

/-! The distance function -/

theorem atan2_zero_one : atan2 0 1 = 0 := by
  unfold atan2
  rw [if_pos (by norm_num : (0:ℝ) < 1)]
  norm_num [Real.arctan_zero]

/-- C9: the great-circle distance is symmetric — `distance(a,b) =
distance(b,a)` for every pair — and `distance(a,a) = 0` for every point. -/
theorem haversine_symm_self (a b : ℝ × ℝ) :
    haversine a b = haversine b a ∧ haversine a a = 0 := by
  constructor
  · simp only [haversine]
    have key : Real.sin (toRad (b.1 - a.1) / 2) ^ 2 +
        Real.cos (toRad a.1) * Real.cos (toRad b.1) *
          Real.sin (toRad (b.2 - a.2) / 2) ^ 2 =
        Real.sin (toRad (a.1 - b.1) / 2) ^ 2 +
          Real.cos (toRad b.1) * Real.cos (toRad a.1) *
            Real.sin (toRad (a.2 - b.2) / 2) ^ 2 := by
      have hsq : ∀ x : ℝ,
          Real.sin (toRad (-x) / 2) ^ 2 = Real.sin (toRad x / 2) ^ 2 := by
        intro x
        have hx : toRad (-x) / 2 = -(toRad x / 2) := by unfold toRad; ring
        rw [hx, Real.sin_neg, neg_sq]
      have e1 : b.1 - a.1 = -(a.1 - b.1) := by ring
      have e2 : b.2 - a.2 = -(a.2 - b.2) := by ring
      rw [e1, e2, hsq, hsq]
      ring
    rw [key]
  · simp only [haversine, sub_self]
    have h0 : toRad 0 / 2 = 0 := by unfold toRad; ring
    rw [h0, Real.sin_zero]
    norm_num [Real.sqrt_zero, Real.sqrt_one, atan2_zero_one]

end UrbanRetail
